import Mathlib

/-!
Shallow embedding of the query-understanding core of the repository
(`src/nlp_processor.py`): term extraction (`extract_financial_terms`),
text normalization (`preprocess_text`), intent classification
(`identify_query_type`) and query analysis (`analyze_query`), together
with proofs about the spec's claims.

Modelling conventions:
* Python dicts built in insertion order are modelled as association lists
  in the same order.
* Python floats (the fixed confidences 0.5 / 0.3 / 0.2 and the similarity
  scores) are modelled as exact rationals.
* The external TF-IDF/cosine-similarity library (scikit-learn) is modelled
  as an oracle parameter: one list of similarity scores per intent, in the
  enumeration order of `QUERY_TEMPLATES`, holding the scores the library
  produced for that intent's templates.  An exception raised while scoring
  one intent is caught by the source's `try/except` and results in that
  intent's score list being cut short (empty when it failed outright).
  The mathematical facts about cosine similarity a claim needs (scores of
  nonnegative tf-idf vectors lie in [0,1]; two identical nonempty
  documents score 1; an all-zero query row scores 0 against everything)
  are stated as hypotheses on the oracle.
* Regular expressions are specialised: the source uses exactly two fixed
  patterns, a whole-word search for one literal term and
  `\b(20\d{2})\b` for years.  Both are embedded operationally below with
  ASCII word-character semantics (all inputs in the claims are ASCII).
-/

set_option maxRecDepth 40000

/-- Word characters for Python's regex `\b` word-boundary semantics
(ASCII fragment: letters, digits, underscore). -/
def isWordChar (c : Char) : Bool := c.isAlphanum || c == '_'

/-- Does a word boundary hold just before the current position, given the
preceding character (`none` at the start of the text)?  This is `\b`
specialised to a following word character, which every configured search
term starts with. -/
def boundaryOk (prev : Option Char) : Bool :=
  match prev with
  | none => true
  | some c => !isWordChar c

/-- Does a word boundary hold just after a term ending in a word
character, given the remaining text? -/
def afterOk (rest : List Char) : Bool :=
  match rest with
  | [] => true
  | c :: _ => !isWordChar c

/-- Scan of `re.search(r'\b' + re.escape(term) + r'\b', text)`: try each
position left to right; at a position the term must be a prefix of the
remaining text with word boundaries on both sides. -/
def searchFrom (term : List Char) (prev : Option Char) (text : List Char) : Bool :=
  match text with
  | [] => false
  | c :: rest =>
    (boundaryOk prev && term.isPrefixOf (c :: rest)
        && afterOk ((c :: rest).drop term.length))
      || searchFrom term (some c) rest

/-- Whole-word occurrence test used by `extract_financial_terms`
(line 180 of `nlp_processor.py`). -/
def termOccurs (term text : String) : Bool := searchFrom term.toList none text.toList

/-- Python `text.lower()`, character by character (ASCII fragment). -/
def pyLower (s : String) : String := String.mk (s.toList.map Char.toLower)

/-- Constant `FINANCIAL_TERMS` (lines 52-63): category → synonym list, in source
order. -/
def FINANCIAL_TERMS : List (String × List String) :=
  [("revenue", ["revenue", "sales", "income", "earnings", "money", "earn", "top line", "turnover"]),
   ("net_income", ["net income", "profit", "earnings", "bottom line", "net earnings", "income"]),
   ("assets", ["assets", "property", "holdings", "possessions", "resources"]),
   ("liabilities", ["liabilities", "debt", "obligations", "payables"]),
   ("cash_flow", ["cash flow", "cash", "liquidity", "funds flow", "operating cash"]),
   ("growth", ["growth", "increase", "rise", "improvement", "expansion"]),
   ("performance", ["performance", "results", "achievements", "accomplishments", "records"]),
   ("comparison", ["compare", "comparison", "versus", "vs", "against", "relative to"]),
   ("trend", ["trend", "pattern", "direction", "movement", "trajectory", "history"]),
   ("forecast", ["forecast", "predict", "projection", "outlook", "future", "expectation"])]

/-- Function `extract_financial_terms` (lines 173-185): lower-case the text, then
for each category in order collect the synonyms that occur as whole
words; categories with no match are absent. -/
def extract_financial_terms (text : String) : List (String × List String) :=
  let t := pyLower text
  (FINANCIAL_TERMS.map (fun p => (p.1, p.2.filter (fun term => termOccurs term t)))).filter
    (fun p => !p.2.isEmpty)

/-- The punctuation characters stripped from each token by
`word.strip('.,;:!?()[]\x7b\x7d""\x27')` (line 151). -/
def pyStripChars : List Char :=
  ['.', ',', ';', ':', '!', '?', '(', ')', '[', ']', '\x7b', '\x7d', '\x22', '\x27']

/-- Python `word.strip(chars)`: remove leading and trailing characters
drawn from the set. -/
def pyStrip (w : List Char) : List Char :=
  ((w.dropWhile (fun c => pyStripChars.contains c)).reverse.dropWhile
    (fun c => pyStripChars.contains c)).reverse

/-- The stop-word set of `preprocess_text` (lines 156-167). -/
def stop_words : List String :=
  ["i", "me", "my", "myself", "we", "our", "ours", "ourselves", "you", "your", "yours",
   "yourself", "yourselves", "he", "him", "his", "himself", "she", "her", "hers",
   "herself", "it", "its", "itself", "they", "them", "their", "theirs", "themselves",
   "what", "which", "who", "whom", "this", "that", "these", "those", "am", "is", "are",
   "was", "were", "be", "been", "being", "have", "has", "had", "having", "do", "does",
   "did", "doing", "a", "an", "the", "and", "but", "if", "or", "because", "as", "until",
   "while", "of", "at", "by", "for", "with", "about", "against", "between", "into",
   "through", "during", "before", "after", "above", "below", "to", "from", "up", "down",
   "in", "out", "on", "off", "over", "under", "again", "further", "then", "once", "here",
   "there", "when", "where", "why", "how", "all", "any", "both", "each", "few", "more",
   "most", "other", "some", "such", "no", "nor", "not", "only", "own", "same", "so",
   "than", "too", "very", "s", "t", "can", "will", "just", "don", "should", "now"]

/-- Python `text.split()`: maximal runs of non-whitespace characters
(`acc` accumulates the current run, reversed). -/
def wsSplitAux : List Char → List Char → List (List Char)
  | [], acc => if acc.isEmpty then [] else [acc.reverse]
  | c :: rest, acc =>
    if c.isWhitespace then
      if acc.isEmpty then wsSplitAux rest [] else acc.reverse :: wsSplitAux rest []
    else wsSplitAux rest (c :: acc)

/-- Python `text.split()` on a string. -/
def pySplit (s : String) : List String := (wsSplitAux s.toList []).map String.mk

/-- Function `preprocess_text` (lines 141-171): lower-case, split on whitespace,
strip punctuation from each token, drop empties, drop stop words and
single-character tokens, rejoin with single spaces. -/
def preprocess_text (text : String) : String :=
  let tokens :=
    ((pySplit (pyLower text)).map (fun w => String.mk (pyStrip w.toList))).filter
      (fun w => w ≠ "")
  let filtered :=
    tokens.filter (fun w => !stop_words.contains w && decide (1 < w.length))
  String.intercalate " " filtered

/-- Constant `QUERY_TEMPLATES` (lines 66-139): intent → canonical example
questions, in source order. -/
def QUERY_TEMPLATES : List (String × List String) :=
  [("revenue_query",
    ["What is the revenue of {company}?",
     "Show me {company}\x27s revenue",
     "Tell me about {company}\x27s revenue",
     "What\x27s the total revenue for {company}?",
     "How much revenue did {company} generate?",
     "What are the earnings of {company}?"]),
   ("net_income_query",
    ["What is the net income of {company}?",
     "How has {company}\x27s net income changed?",
     "Tell me about {company}\x27s profit",
     "What\x27s the profit for {company}?",
     "How much did {company} earn?",
     "What is {company}\x27s bottom line?"]),
   ("assets_liabilities_query",
    ["What are the assets and liabilities of {company}?",
     "Tell me about {company}\x27s assets",
     "What is the debt of {company}?",
     "Show me {company}\x27s financial position",
     "What\x27s the balance sheet of {company}?",
     "How much does {company} own and owe?"]),
   ("cash_flow_query",
    ["How has the cash flow of {company} changed?",
     "Tell me about {company}\x27s cash flow",
     "What is the operating cash flow of {company}?",
     "Show me {company}\x27s cash situation",
     "What\x27s the cash position for {company}?",
     "How much cash is {company} generating from operations?"]),
   ("growth_query",
    ["What is the revenue growth of {company}?",
     "How fast is {company} growing?",
     "Tell me about {company}\x27s growth",
     "What\x27s the growth rate for {company}?",
     "Is {company} growing year over year?",
     "How has {company}\x27s size changed over time?"]),
   ("performance_query",
    ["How is {company} performing?",
     "Tell me about {company}\x27s performance",
     "What\x27s the overall financial performance of {company}?",
     "How did {company} do financially?",
     "Give me an overview of {company}\x27s results",
     "What are {company}\x27s key financial metrics?"]),
   ("comparison_query",
    ["Compare {company} with other companies",
     "How does {company} compare to its peers?",
     "Is {company} performing better than others?",
     "Show me a comparison of {company} with its competitors",
     "What\x27s the relative performance of {company}?",
     "Is {company} outperforming or underperforming?"]),
   ("trend_query",
    ["What is the trend in {company}\x27s revenue?",
     "Show me the trend in {company}\x27s performance",
     "Has {company}\x27s profit been increasing or decreasing?",
     "What pattern do you see in {company}\x27s financials?",
     "Is there a consistent trend in {company}\x27s metrics?",
     "How have {company}\x27s financials evolved over time?"]),
   ("forecast_query",
    ["What\x27s the forecast for {company}?",
     "Predict {company}\x27s future performance",
     "What can we expect from {company} in the future?",
     "Show me projections for {company}",
     "What\x27s the outlook for {company}?",
     "How might {company} perform going forward?"])]

/-- The nine intent identifiers, in template-bank enumeration order. -/
def INTENT_NAMES : List String := QUERY_TEMPLATES.map Prod.fst

/-- The ten term-category names, in `FINANCIAL_TERMS` enumeration order. -/
def CATEGORY_NAMES : List String := FINANCIAL_TERMS.map Prod.fst

/-- Substitution of the first occurrence of a pattern. -/
def replaceFirst (pat rep : List Char) : List Char → List Char
  | [] => []
  | c :: rest =>
    if pat.isPrefixOf (c :: rest) then rep ++ (c :: rest).drop pat.length
    else c :: replaceFirst pat rep rest

/-- Python `template.format(company=company)` (line 239): substitute the company
name for the `{company}` placeholder (each template in the bank contains
exactly one occurrence). -/
def formatCompany (template company : String) : String :=
  String.mk (replaceFirst "{company}".toList company.toList template.toList)

/-- One comparison step of the similarity loop (lines 260-264):
`if similarity > highest_score:` update both the score and the intent. -/
def scoreStep (name : String) (acc : Option String × ℚ) (s : ℚ) : Option String × ℚ :=
  if acc.2 < s then (some name, s) else acc

/-- The inner loop over one intent's template scores (lines 260-264). -/
def intentFold (name : String) (scores : List ℚ) (acc : Option String × ℚ) :
    Option String × ℚ :=
  scores.foldl (scoreStep name) acc

/-- The outer loop over all intents (lines 242-267), starting from
`best_match = None, highest_score = -1`. -/
def simFold (scored : List (String × List ℚ)) : Option String × ℚ :=
  scored.foldl (fun acc p => intentFold p.1 p.2 acc) (none, -1)

/-- Availability of the similarity engine (`SKLEARN_AVAILABLE`), with the
oracle of per-intent similarity scores when available. -/
inductive SimEngine where
  | unavailable : SimEngine
  | available : List (List ℚ) → SimEngine

/-- Result record of `identify_query_type` (lines 281-285). -/
structure QueryInfo where
  query_type : String
  confidence : ℚ
  financial_terms : List (String × List String)
deriving DecidableEq

/-- Python substring containment `sub in text` on character lists. -/
def containsSub (sub text : List Char) : Bool :=
  match text with
  | [] => sub.isEmpty
  | c :: rest => sub.isPrefixOf (c :: rest) || containsSub sub rest

/-- Python `any(word in query_lower for word in words)` (lines 212-228). -/
def anyKeyword (ql : String) (words : List String) : Bool :=
  words.any (fun w => containsSub w.toList ql.toList)

/-- The ordered keyword heuristics of the fallback path
(lines 211-229); `none` when no rule fires. -/
def keywordMatch (ql : String) : Option String :=
  if anyKeyword ql ["revenue", "sales", "earn"] then some "revenue_query"
  else if anyKeyword ql ["profit", "income", "earnings"] then some "net_income_query"
  else if anyKeyword ql ["asset", "debt", "liability"] then some "assets_liabilities_query"
  else if anyKeyword ql ["cash", "flow", "liquidity"] then some "cash_flow_query"
  else if anyKeyword ql ["growth", "growing", "increase"] then some "growth_query"
  else if anyKeyword ql ["performance", "overview", "summary"] then some "performance_query"
  else if anyKeyword ql ["compare", "comparison", "versus", "vs"] then some "comparison_query"
  else if anyKeyword ql ["trend", "pattern", "historical"] then some "trend_query"
  else if anyKeyword ql ["forecast", "future", "predict", "projection"] then some "forecast_query"
  else none

/-- Function `identify_query_type` (lines 187-285).  On the similarity path the
per-intent scores come from the oracle, zipped against the intent names in
template-bank order exactly as the source loop iterates them. -/
def identify_query_type (engine : SimEngine) (query company : String) : QueryInfo :=
  let financial_terms := extract_financial_terms query
  let term_based_match : Option String := financial_terms.head?.map Prod.fst
  match engine with
  | .unavailable =>
    match term_based_match with
    | some b => { query_type := b, confidence := 1/2, financial_terms }
    | none =>
      match keywordMatch (pyLower query) with
      | some b => { query_type := b, confidence := 3/10, financial_terms }
      | none => { query_type := "performance_query", confidence := 1/5, financial_terms }
  | .available oracle =>
    let r := simFold ((QUERY_TEMPLATES.map Prod.fst).zip oracle)
    let best := match r.1 with
      | some b => some b
      | none => term_based_match
    match best with
    | some b =>
      { query_type := b, confidence := if 0 < r.2 then r.2 else 3/10, financial_terms }
    | none => { query_type := "performance_query", confidence := 1/5, financial_terms }

/-- Support for `re.findall(r'\b(20\d{2})\b', query)`: does a year match
start at position `i` of `text`, given the character preceding the
text (`prev`)?  Checks "20", two digits, and word boundaries on both
sides. -/
def optDigit (o : Option Char) : Bool :=
  match o with
  | some c => c.isDigit
  | none => false

/-- Is the optional character absent or a non-word character? -/
def optNotWord (o : Option Char) : Bool :=
  match o with
  | some c => !isWordChar c
  | none => true

/-- Positional test for a `\b20\d{2}\b` match at index `i`. -/
def validYearAt (prev : Option Char) (text : List Char) (i : Nat) : Bool :=
  (match i with
   | 0 => boundaryOk prev
   | j + 1 => optNotWord text[j]?) &&
  (text[i]? == some '2') && (text[i + 1]? == some '0') &&
  optDigit text[i + 2]? && optDigit text[i + 3]? && optNotWord text[i + 4]?

/-- The four characters starting at index `i`, as the matched string. -/
def extractAt (text : List Char) (i : Nat) : String := String.mk ((text.drop i).take 4)

/-- Python `re.findall(r'\b(20\d{2})\b', query)` (lines 303-304): scan left to
right; on a match emit the four characters and resume after them,
otherwise advance one character. -/
def findAll20 (prev : Option Char) (text : List Char) : List String :=
  match text with
  | [] => []
  | c :: rest =>
    if validYearAt prev (c :: rest) 0 then
      extractAt (c :: rest) 0 :: findAll20 (c :: rest)[3]? ((c :: rest).drop 4)
    else
      findAll20 (some c) rest
termination_by text.length
decreasing_by
  · simp only [List.length_drop, List.length_cons]
    omega
  · simp

/-- Output record of `analyze_query` (lines 324-333). -/
structure QueryAnalysis where
  query_type : String
  confidence : ℚ
  is_comparison : Bool
  is_trend : Bool
  is_forecast : Bool
  time_periods : List String
  metrics : List String
  financial_terms : List (String × List String)
deriving DecidableEq

/-- The five metric category keys checked by `analyze_query`
(lines 312-321), in source order. -/
def METRIC_KEYS : List String := ["revenue", "net_income", "assets", "liabilities", "cash_flow"]

/-- Function `analyze_query` (lines 287-333). -/
def analyze_query (engine : SimEngine) (query company : String) : QueryAnalysis :=
  let query_info := identify_query_type engine query company
  let ft := query_info.financial_terms
  let hasCat := fun (c : String) => (ft.map Prod.fst).contains c
  let time_periods := findAll20 none query.toList
  let metricList := METRIC_KEYS.filter hasCat
  { query_type := query_info.query_type
    confidence := query_info.confidence
    is_comparison := hasCat "comparison"
    is_trend := hasCat "trend"
    is_forecast := hasCat "forecast"
    time_periods := time_periods
    metrics := if metricList.isEmpty then ["all"] else metricList
    financial_terms := ft }

/-- The similarity loop started from an arbitrary accumulator (used to
reason about the loop of lines 242-267 by induction). -/
def simFoldFrom (scored : List (String × List ℚ)) (acc : Option String × ℚ) :
    Option String × ℚ :=
  scored.foldl (fun a p => intentFold p.1 p.2 a) acc

/-- All (intent, similarity score) pairs of an oracle run, flattened in
the order the double loop of lines 245-264 visits them. -/
def pairsOf : List (String × List ℚ) → List (String × ℚ)
  | [] => []
  | p :: rest => p.2.map (fun s => (p.1, s)) ++ pairsOf rest

/-- The similarity loop expressed over the flattened pair list. -/
def pairFold (pairs : List (String × ℚ)) (acc : Option String × ℚ) :
    Option String × ℚ :=
  pairs.foldl (fun a q => scoreStep q.1 a q.2) acc

/-- Word-boundary condition before a match that is preceded by `pre`
within the scanned text (and by `prev` before the scanned text). -/
def preBoundary (prev : Option Char) (pre : List Char) : Bool :=
  match pre.getLast? with
  | none => boundaryOk prev
  | some c => !isWordChar c

/-- A whole-word occurrence of `term`: `text` splits as
`pre ++ term ++ post` with a word boundary on each side (the boundary
before a match at the very start is judged against `prev`, the character
preceding the scanned text, `none` at the start of the string). -/
def OccursWW (prev : Option Char) (term text : List Char) : Prop :=
  ∃ pre post, text = pre ++ term ++ post ∧ preBoundary prev pre = true ∧ afterOk post = true

/-- Specification of `re.findall(r'\b(20\d{2})\b', ...)`: the matched
strings of all boundary-delimited year positions, in increasing position
order, duplicates preserved. -/
def yearsSpec (prev : Option Char) (text : List Char) : List String :=
  ((List.range text.length).filter (validYearAt prev text)).map (extractAt text)

/-- Oracle in which every similarity score is 0: what scikit-learn's
`cosine_similarity` produces when the preprocessed query vectorizes to
the zero row, as happens for the empty query (the vocabulary is fitted on
the query together with the intent's templates, so fitting succeeds and
no exception is raised). -/
def zeroOracle : List (List ℚ) :=
  QUERY_TEMPLATES.map (fun p => p.2.map (fun _ => (0 : ℚ)))

/-- Oracle in which every intent's similarity computation failed with an
exception before producing any score. -/
def failOracle : List (List ℚ) :=
  QUERY_TEMPLATES.map (fun _ => ([] : List ℚ))

/-! Equation lemmas for the similarity loop. -/

theorem intentFold_nil (name : String) (acc : Option String × ℚ) :
    intentFold name [] acc = acc := rfl

theorem intentFold_cons (name : String) (s : ℚ) (rest : List ℚ)
    (acc : Option String × ℚ) :
    intentFold name (s :: rest) acc = intentFold name rest (scoreStep name acc s) := rfl

theorem simFoldFrom_nil (acc : Option String × ℚ) : simFoldFrom [] acc = acc := rfl

theorem simFoldFrom_cons (p : String × List ℚ) (rest : List (String × List ℚ))
    (acc : Option String × ℚ) :
    simFoldFrom (p :: rest) acc = simFoldFrom rest (intentFold p.1 p.2 acc) := rfl

theorem simFold_eq_from (scored : List (String × List ℚ)) :
    simFold scored = simFoldFrom scored (none, -1) := rfl

theorem pairFold_nil (acc : Option String × ℚ) : pairFold [] acc = acc := rfl

theorem pairFold_cons (q : String × ℚ) (rest : List (String × ℚ))
    (acc : Option String × ℚ) :
    pairFold (q :: rest) acc = pairFold rest (scoreStep q.1 acc q.2) := rfl

theorem scoreStep_snd_le (name : String) (acc : Option String × ℚ) (s : ℚ) :
    acc.2 ≤ (scoreStep name acc s).2 := by
  unfold scoreStep
  split
  · exact le_of_lt (by assumption)
  · exact le_refl _

theorem scoreStep_snd_le_of (name : String) (acc : Option String × ℚ) (s B : ℚ)
    (hacc : acc.2 ≤ B) (hs : s ≤ B) : (scoreStep name acc s).2 ≤ B := by
  unfold scoreStep
  split
  · exact hs
  · exact hacc

theorem intentFold_snd_le (name : String) (scores : List ℚ) (B : ℚ) :
    ∀ acc : Option String × ℚ, acc.2 ≤ B → (∀ s ∈ scores, s ≤ B) →
      (intentFold name scores acc).2 ≤ B := by
  induction scores with
  | nil => intro acc hacc _; exact hacc
  | cons s rest ih =>
    intro acc hacc hall
    rw [intentFold_cons]
    exact ih _ (scoreStep_snd_le_of name acc s B hacc (hall s (by simp)))
      (fun x hx => hall x (by simp [hx]))

theorem le_intentFold_snd (name : String) (scores : List ℚ) :
    ∀ acc : Option String × ℚ, acc.2 ≤ (intentFold name scores acc).2 := by
  induction scores with
  | nil => intro acc; exact le_refl _
  | cons s rest ih =>
    intro acc
    rw [intentFold_cons]
    exact le_trans (scoreStep_snd_le name acc s) (ih _)

theorem intentFold_const (name : String) (scores : List ℚ) :
    ∀ acc : Option String × ℚ, (∀ s ∈ scores, s ≤ acc.2) →
      intentFold name scores acc = acc := by
  induction scores with
  | nil => intro acc _; rfl
  | cons s rest ih =>
    intro acc hall
    rw [intentFold_cons]
    have hstep : scoreStep name acc s = acc := by
      unfold scoreStep
      rw [if_neg (not_lt.mpr (hall s (by simp)))]
    rw [hstep]
    exact ih _ (fun x hx => hall x (by simp [hx]))

theorem intentFold_fst (name : String) (scores : List ℚ) :
    ∀ acc : Option String × ℚ,
      (intentFold name scores acc).1 = acc.1 ∨ (intentFold name scores acc).1 = some name := by
  induction scores with
  | nil => intro acc; exact Or.inl rfl
  | cons s rest ih =>
    intro acc
    rw [intentFold_cons]
    rcases ih (scoreStep name acc s) with h | h
    · rw [h]
      unfold scoreStep
      split
      · exact Or.inr rfl
      · exact Or.inl rfl
    · exact Or.inr h

theorem simFoldFrom_snd_le (scored : List (String × List ℚ)) (B : ℚ) :
    ∀ acc : Option String × ℚ, acc.2 ≤ B → (∀ p ∈ scored, ∀ s ∈ p.2, s ≤ B) →
      (simFoldFrom scored acc).2 ≤ B := by
  induction scored with
  | nil => intro acc hacc _; exact hacc
  | cons p rest ih =>
    intro acc hacc hall
    rw [simFoldFrom_cons]
    exact ih _ (intentFold_snd_le p.1 p.2 B acc hacc (hall p (by simp)))
      (fun q hq => hall q (by simp [hq]))

theorem le_simFoldFrom_snd (scored : List (String × List ℚ)) :
    ∀ acc : Option String × ℚ, acc.2 ≤ (simFoldFrom scored acc).2 := by
  induction scored with
  | nil => intro acc; exact le_refl _
  | cons p rest ih =>
    intro acc
    rw [simFoldFrom_cons]
    exact le_trans (le_intentFold_snd p.1 p.2 acc) (ih _)

theorem simFoldFrom_const (scored : List (String × List ℚ)) :
    ∀ acc : Option String × ℚ, (∀ p ∈ scored, ∀ s ∈ p.2, s ≤ acc.2) →
      simFoldFrom scored acc = acc := by
  induction scored with
  | nil => intro acc _; rfl
  | cons p rest ih =>
    intro acc hall
    rw [simFoldFrom_cons]
    have hstep : intentFold p.1 p.2 acc = acc :=
      intentFold_const p.1 p.2 acc (fun s hs => hall p (by simp) s hs)
    rw [hstep]
    exact ih _ (fun q hq => hall q (by simp [hq]))

theorem simFoldFrom_fst (scored : List (String × List ℚ)) :
    ∀ acc : Option String × ℚ,
      (simFoldFrom scored acc).1 = acc.1 ∨
        ∃ p ∈ scored, (simFoldFrom scored acc).1 = some p.1 := by
  induction scored with
  | nil => intro acc; exact Or.inl rfl
  | cons p rest ih =>
    intro acc
    rw [simFoldFrom_cons]
    rcases ih (intentFold p.1 p.2 acc) with h | ⟨q, hq, h⟩
    · rw [h]
      rcases intentFold_fst p.1 p.2 acc with h2 | h2
      · exact Or.inl h2
      · exact Or.inr ⟨p, by simp, h2⟩
    · exact Or.inr ⟨q, by simp [hq], h⟩

theorem intentFold_eq_pairFold (name : String) (scores : List ℚ) :
    ∀ acc : Option String × ℚ,
      intentFold name scores acc = pairFold (scores.map (fun s => (name, s))) acc := by
  induction scores with
  | nil => intro acc; rfl
  | cons s rest ih =>
    intro acc
    rw [intentFold_cons, List.map_cons, pairFold_cons]
    exact ih _

theorem pairFold_append (xs ys : List (String × ℚ)) (acc : Option String × ℚ) :
    pairFold (xs ++ ys) acc = pairFold ys (pairFold xs acc) := by
  unfold pairFold
  rw [List.foldl_append]

theorem simFoldFrom_eq_pairFold (scored : List (String × List ℚ)) :
    ∀ acc : Option String × ℚ, simFoldFrom scored acc = pairFold (pairsOf scored) acc := by
  induction scored with
  | nil => intro acc; rfl
  | cons p rest ih =>
    intro acc
    rw [simFoldFrom_cons, ih]
    show pairFold (pairsOf rest) (intentFold p.1 p.2 acc) = _
    rw [intentFold_eq_pairFold]
    show _ = pairFold (p.2.map (fun s => (p.1, s)) ++ pairsOf rest) acc
    rw [pairFold_append]

theorem pairFold_const (pairs : List (String × ℚ)) :
    ∀ acc : Option String × ℚ, (∀ q ∈ pairs, q.2 ≤ acc.2) → pairFold pairs acc = acc := by
  induction pairs with
  | nil => intro acc _; rfl
  | cons q rest ih =>
    intro acc hall
    rw [pairFold_cons]
    have hstep : scoreStep q.1 acc q.2 = acc := by
      unfold scoreStep
      rw [if_neg (not_lt.mpr (hall q (by simp)))]
    rw [hstep]
    exact ih _ (fun x hx => hall x (by simp [hx]))

theorem pairFold_first_max (m : ℚ) :
    ∀ (pairs : List (String × ℚ)) (acc : Option String × ℚ) (p : String × ℚ),
      acc.2 < m → (∀ q ∈ pairs, q.2 ≤ m) →
      pairs.find? (fun q => q.2 == m) = some p →
      pairFold pairs acc = (some p.1, m) := by
  intro pairs
  induction pairs with
  | nil => intro acc p _ _ hfind; simp at hfind
  | cons q rest ih =>
    intro acc p hlt hle hfind
    by_cases hq : q.2 = m
    · rw [List.find?_cons_of_pos _ (by simp [hq])] at hfind
      have hp : q = p := by simpa using hfind
      subst hp
      rw [pairFold_cons]
      have hstep : scoreStep q.1 acc q.2 = (some q.1, m) := by
        unfold scoreStep
        rw [if_pos (hq ▸ hlt), hq]
      rw [hstep]
      exact pairFold_const rest (some q.1, m) (fun x hx => hle x (by simp [hx]))
    · rw [List.find?_cons_of_neg _ (by simp [hq])] at hfind
      rw [pairFold_cons]
      apply ih _ p _ (fun x hx => hle x (by simp [hx])) hfind
      unfold scoreStep
      split
      · exact lt_of_le_of_ne (hle q (by simp)) hq
      · exact hlt

theorem simFold_skip (pre post : List (String × List ℚ)) (n : String) :
    simFold (pre ++ (n, ([] : List ℚ)) :: post) = simFold (pre ++ post) := by
  unfold simFold
  rw [List.foldl_append, List.foldl_append, List.foldl_cons]
  rfl

/-! Characterization of the whole-word search. -/

theorem isPrefixOf_iff (term : List Char) :
    ∀ l : List Char, term.isPrefixOf l = true ↔ ∃ post, l = term ++ post := by
  induction term with
  | nil =>
    intro l
    constructor
    · intro _; exact ⟨l, rfl⟩
    · intro _; simp [List.isPrefixOf]
  | cons a as ih =>
    intro l
    cases l with
    | nil =>
      constructor
      · intro h; exact absurd h (by simp [List.isPrefixOf])
      · rintro ⟨post, h⟩; exact absurd h (by simp)
    | cons b bs =>
      simp only [List.isPrefixOf, Bool.and_eq_true, beq_iff_eq, ih bs, List.cons_append,
        List.cons.injEq]
      constructor
      · rintro ⟨rfl, post, rfl⟩; exact ⟨post, rfl, rfl⟩
      · rintro ⟨post, rfl, rfl⟩; exact ⟨rfl, post, rfl⟩

theorem getLast?_cons_ne_none (y : Char) (ys : List Char) : (y :: ys).getLast? ≠ none := by
  induction ys generalizing y with
  | nil => simp
  | cons z zs ih => rw [List.getLast?_cons_cons]; exact ih z

theorem preBoundary_nil (prev : Option Char) : preBoundary prev [] = boundaryOk prev := rfl

theorem preBoundary_cons (prev : Option Char) (c : Char) (pre : List Char) :
    preBoundary prev (c :: pre) = preBoundary (some c) pre := by
  cases pre with
  | nil =>
    unfold preBoundary
    rw [List.getLast?_singleton]
    rfl
  | cons y ys =>
    unfold preBoundary
    rw [List.getLast?_cons_cons]
    cases hg : (y :: ys).getLast? with
    | none => exact absurd hg (getLast?_cons_ne_none y ys)
    | some x => rfl

theorem searchFrom_iff_occurs (term : List Char) (hne : term ≠ []) :
    ∀ (text : List Char) (prev : Option Char),
      searchFrom term prev text = true ↔ OccursWW prev term text := by
  intro text
  induction text with
  | nil =>
    intro prev
    constructor
    · intro h; simp [searchFrom] at h
    · rintro ⟨pre, post, heq, -, -⟩
      have h0 : (pre ++ term) ++ post = [] := heq.symm
      rw [List.append_eq_nil] at h0
      have h1 := h0.1
      rw [List.append_eq_nil] at h1
      exact absurd h1.2 hne
  | cons c rest ih =>
    intro prev
    have hunf : searchFrom term prev (c :: rest) =
        ((boundaryOk prev && term.isPrefixOf (c :: rest)
          && afterOk ((c :: rest).drop term.length)) || searchFrom term (some c) rest) := rfl
    rw [hunf, Bool.or_eq_true, Bool.and_eq_true, Bool.and_eq_true]
    constructor
    · rintro (⟨⟨hb, hp⟩, ha⟩ | h)
      · obtain ⟨post, hpost⟩ := (isPrefixOf_iff term (c :: rest)).mp hp
        refine ⟨[], post, by simpa using hpost, by rw [preBoundary_nil]; exact hb, ?_⟩
        have hd : (c :: rest).drop term.length = post := by
          rw [hpost]; exact List.drop_left term post
        rwa [hd] at ha
      · obtain ⟨pre, post, heq, hpre, hpost⟩ := (ih (some c)).mp h
        refine ⟨c :: pre, post, ?_, ?_, hpost⟩
        · rw [heq]; simp [List.cons_append, List.append_assoc]
        · rw [preBoundary_cons]; exact hpre
    · rintro ⟨pre, post, heq, hpre, hpost⟩
      cases pre with
      | nil =>
        left
        simp only [List.nil_append] at heq
        rw [preBoundary_nil] at hpre
        refine ⟨⟨hpre, (isPrefixOf_iff term (c :: rest)).mpr ⟨post, heq⟩⟩, ?_⟩
        have hd : (c :: rest).drop term.length = post := by
          rw [heq]; exact List.drop_left term post
        rw [hd]; exact hpost
      | cons x xs =>
        right
        rw [List.cons_append, List.cons_append] at heq
        have hc : c = x := by injection heq
        have hrest : rest = (xs ++ term) ++ post := by injection heq
        apply (ih (some c)).mpr
        refine ⟨xs, post, hrest, ?_, hpost⟩
        rw [preBoundary_cons] at hpre
        rw [hc]
        exact hpre

/-! Characterization of the term extractor. -/

theorem extract_mem_iff (text cat : String) (l : List String) :
    (cat, l) ∈ extract_financial_terms text ↔
      ∃ ts, (cat, ts) ∈ FINANCIAL_TERMS ∧
        l = ts.filter (fun t => termOccurs t (pyLower text)) ∧ l ≠ [] := by
  simp only [extract_financial_terms, List.mem_filter, List.mem_map]
  constructor
  · rintro ⟨⟨⟨c0, ts⟩, hp, heq⟩, hne⟩
    simp only [Prod.mk.injEq] at heq
    obtain ⟨rfl, rfl⟩ := heq
    refine ⟨ts, hp, rfl, ?_⟩
    simpa using hne
  · rintro ⟨ts, hts, rfl, hne⟩
    exact ⟨⟨(cat, ts), hts, rfl⟩, by simpa using hne⟩

theorem extract_key_iff (text cat : String) :
    cat ∈ (extract_financial_terms text).map Prod.fst ↔
      ∃ ts, (cat, ts) ∈ FINANCIAL_TERMS ∧ ∃ t ∈ ts, termOccurs t (pyLower text) = true := by
  constructor
  · intro hmem
    simp only [List.mem_map] at hmem
    obtain ⟨⟨c0, l⟩, hp, hfst⟩ := hmem
    have hc : c0 = cat := hfst
    subst hc
    rw [extract_mem_iff] at hp
    obtain ⟨ts, hts, hl, hne⟩ := hp
    refine ⟨ts, hts, ?_⟩
    obtain ⟨x, hx⟩ := List.exists_mem_of_ne_nil l hne
    rw [hl] at hx
    rw [List.mem_filter] at hx
    exact ⟨x, hx.1, hx.2⟩
  · rintro ⟨ts, hts, t, ht, hocc⟩
    simp only [List.mem_map]
    refine ⟨(cat, ts.filter (fun t => termOccurs t (pyLower text))), ?_, rfl⟩
    rw [extract_mem_iff]
    refine ⟨ts, hts, rfl, ?_⟩
    intro hnil
    have hm : t ∈ ts.filter (fun t => termOccurs t (pyLower text)) :=
      List.mem_filter.mpr ⟨ht, hocc⟩
    rw [hnil] at hm
    simp at hm

/-! Characterization of the year finder. -/

theorem isWordChar_of_digit (c : Char) (h : c.isDigit = true) : isWordChar c = true := by
  simp [isWordChar, Char.isAlphanum, h]

theorem validYearAt_shift (prev : Option Char) (c : Char) (rest : List Char) (i : Nat) :
    validYearAt prev (c :: rest) (i + 1) = validYearAt (some c) rest i := by
  cases i with
  | zero =>
    simp [validYearAt, boundaryOk, optNotWord, List.getElem?_cons_zero,
      List.getElem?_cons_succ]
  | succ j =>
    simp [validYearAt, List.getElem?_cons_succ]

theorem extractAt_shift (c : Char) (rest : List Char) (i : Nat) :
    extractAt (c :: rest) (i + 1) = extractAt rest i := by
  simp [extractAt, List.drop_succ_cons]

theorem yearsSpec_nil (prev : Option Char) : yearsSpec prev [] = [] := rfl

theorem yearsSpec_cons (prev : Option Char) (c : Char) (rest : List Char) :
    yearsSpec prev (c :: rest) =
      (if validYearAt prev (c :: rest) 0 = true then [extractAt (c :: rest) 0] else []) ++
        yearsSpec (some c) rest := by
  unfold yearsSpec
  rw [List.length_cons, List.range_succ_eq_map, List.filter_cons]
  have hshift :
      List.filter (validYearAt prev (c :: rest)) ((List.range rest.length).map Nat.succ) =
        ((List.range rest.length).filter (validYearAt (some c) rest)).map Nat.succ := by
    rw [List.filter_map]
    congr 1
    apply List.filter_congr
    intro i _
    exact validYearAt_shift prev c rest i
  have hmap :
      (((List.range rest.length).filter (validYearAt (some c) rest)).map Nat.succ).map
          (extractAt (c :: rest)) =
        ((List.range rest.length).filter (validYearAt (some c) rest)).map (extractAt rest) := by
    rw [List.map_map]
    apply List.map_congr_left
    intro i _
    exact extractAt_shift c rest i
  split
  · rw [List.map_cons, hshift, hmap]
    rfl
  · rw [hshift, hmap]
    rfl

theorem validYearAt_zero_shape (prev : Option Char) (text : List Char)
    (h : validYearAt prev text 0 = true) :
    ∃ x y rest3, text = '2' :: '0' :: x :: y :: rest3 ∧ x.isDigit = true ∧
      y.isDigit = true ∧ boundaryOk prev = true := by
  simp only [validYearAt, Bool.and_eq_true, beq_iff_eq] at h
  obtain ⟨⟨⟨⟨⟨hb, h2⟩, h0⟩, hx⟩, hy⟩, -⟩ := h
  cases text with
  | nil => simp at h2
  | cons a rest =>
    cases rest with
    | nil => simp at h0
    | cons b rest1 =>
      cases rest1 with
      | nil => simp [optDigit] at hx
      | cons x rest2 =>
        cases rest2 with
        | nil => simp [optDigit] at hy
        | cons y rest3 =>
          simp only [List.getElem?_cons_zero, List.getElem?_cons_succ, Option.some.injEq,
            optDigit] at h2 h0 hx hy
          exact ⟨x, y, rest3, by rw [h2, h0], hx, hy, hb⟩

theorem findAll20_nil (prev : Option Char) : findAll20 prev [] = [] := by
  unfold findAll20
  rfl

theorem findAll20_cons (prev : Option Char) (c : Char) (rest : List Char) :
    findAll20 prev (c :: rest) =
      if validYearAt prev (c :: rest) 0 = true then
        extractAt (c :: rest) 0 :: findAll20 (c :: rest)[3]? ((c :: rest).drop 4)
      else findAll20 (some c) rest := by
  rw [findAll20.eq_def]

theorem findAll20_eq_yearsSpec (prev : Option Char) (text : List Char) :
    findAll20 prev text = yearsSpec prev text := by
  induction prev, text using findAll20.induct with
  | case1 prev => rw [findAll20_nil, yearsSpec_nil]
  | case2 prev c rest h ih =>
    obtain ⟨x, y, rest3, hshape, hx, hy, -⟩ := validYearAt_zero_shape prev (c :: rest) h
    have hc : c = '2' := by injection hshape
    have hr : rest = '0' :: x :: y :: rest3 := by injection hshape
    subst hc hr
    have hget : ('2' :: '0' :: x :: y :: rest3)[3]? = some y := by
      simp [List.getElem?_cons_succ, List.getElem?_cons_zero]
    have hdrop : ('2' :: '0' :: x :: y :: rest3).drop 4 = rest3 := by
      simp [List.drop_succ_cons]
    rw [hget, hdrop] at ih
    rw [findAll20_cons, if_pos h, hget, hdrop, ih]
    have hb2 : ¬ validYearAt (some '2') ('0' :: x :: y :: rest3) 0 = true := by
      simp [validYearAt, boundaryOk, isWordChar]
    have hb0 : ¬ validYearAt (some '0') (x :: y :: rest3) 0 = true := by
      simp [validYearAt, boundaryOk, isWordChar]
    have hbx : ¬ validYearAt (some x) (y :: rest3) 0 = true := by
      simp [validYearAt, boundaryOk, isWordChar_of_digit x hx]
    rw [yearsSpec_cons, if_pos h, yearsSpec_cons, if_neg hb2, yearsSpec_cons, if_neg hb0,
      yearsSpec_cons, if_neg hbx]
    simp
  | case3 prev c rest h ih =>
    rw [findAll20_cons, if_neg h, ih, yearsSpec_cons, if_neg h, List.nil_append]

/-! Facts about the static configuration, and the degenerate-input case. -/

theorem config_terms_wellformed :
    FINANCIAL_TERMS.all (fun p => p.2.all (fun t =>
      match t.toList with
      | [] => false
      | c :: _ => isWordChar c)) = true := by decide

theorem config_term_head (cat : String) (ts : List String) (t : String)
    (hts : (cat, ts) ∈ FINANCIAL_TERMS) (ht : t ∈ ts) :
    ∃ c cs, t.toList = c :: cs ∧ isWordChar c = true := by
  have hall := config_terms_wellformed
  rw [List.all_eq_true] at hall
  have h1 := hall (cat, ts) hts
  rw [List.all_eq_true] at h1
  have h2 := h1 t ht
  rcases hl : t.toList with _ | ⟨c, cs⟩
  · rw [hl] at h2; simp at h2
  · rw [hl] at h2; exact ⟨c, cs, rfl, h2⟩

theorem config_term_ne_nil (cat : String) (ts : List String) (t : String)
    (hts : (cat, ts) ∈ FINANCIAL_TERMS) (ht : t ∈ ts) : t.toList ≠ [] := by
  obtain ⟨c, cs, hl, -⟩ := config_term_head cat ts t hts ht
  rw [hl]
  simp

theorem extract_nonword_eq_nil (text : String)
    (h : ∀ c ∈ (pyLower text).toList, isWordChar c = false) :
    extract_financial_terms text = [] := by
  simp only [extract_financial_terms]
  rw [List.filter_eq_nil_iff]
  intro p hp
  simp only [List.mem_map] at hp
  obtain ⟨⟨cat, ts⟩, hmem, rfl⟩ := hp
  simp only [Bool.not_eq_true, Bool.not_eq_false']
  rw [List.isEmpty_iff, List.filter_eq_nil_iff]
  intro t ht
  simp only [Bool.not_eq_true]
  rcases hocc : termOccurs t (pyLower text) with _ | _
  · rfl
  · exfalso
    obtain ⟨c, cs, hl, hcw⟩ := config_term_head cat ts t hmem ht
    have hne : t.toList ≠ [] := by rw [hl]; simp
    have hoc : OccursWW none t.toList (pyLower text).toList :=
      (searchFrom_iff_occurs t.toList hne (pyLower text).toList none).mp hocc
    obtain ⟨pre, post, heq, -, -⟩ := hoc
    have hcmem : c ∈ (pyLower text).toList := by
      rw [heq, hl]
      simp
    have := h c hcmem
    rw [hcw] at this
    exact Bool.noConfusion this

/-! Accessor lemmas for the classifier and the analyzer. -/

theorem identify_financial_terms (e : SimEngine) (q c : String) :
    (identify_query_type e q c).financial_terms = extract_financial_terms q := by
  cases e <;> simp only [identify_query_type] <;> (repeat' split) <;> rfl

theorem analyze_financial_terms (e : SimEngine) (q c : String) :
    (analyze_query e q c).financial_terms = extract_financial_terms q := by
  simp only [analyze_query]
  exact identify_financial_terms e q c

theorem analyze_query_type (e : SimEngine) (q c : String) :
    (analyze_query e q c).query_type = (identify_query_type e q c).query_type := rfl

theorem analyze_confidence (e : SimEngine) (q c : String) :
    (analyze_query e q c).confidence = (identify_query_type e q c).confidence := rfl

theorem analyze_time_periods (e : SimEngine) (q c : String) :
    (analyze_query e q c).time_periods = findAll20 none q.toList := rfl

theorem analyze_is_comparison (e : SimEngine) (q c : String) :
    (analyze_query e q c).is_comparison =
      ((extract_financial_terms q).map Prod.fst).contains "comparison" := by
  simp only [analyze_query, identify_financial_terms]

theorem analyze_is_trend (e : SimEngine) (q c : String) :
    (analyze_query e q c).is_trend =
      ((extract_financial_terms q).map Prod.fst).contains "trend" := by
  simp only [analyze_query, identify_financial_terms]

theorem analyze_is_forecast (e : SimEngine) (q c : String) :
    (analyze_query e q c).is_forecast =
      ((extract_financial_terms q).map Prod.fst).contains "forecast" := by
  simp only [analyze_query, identify_financial_terms]

theorem analyze_metrics (e : SimEngine) (q c : String) :
    (analyze_query e q c).metrics =
      (if (METRIC_KEYS.filter
            (fun k => ((extract_financial_terms q).map Prod.fst).contains k)).isEmpty then
        ["all"]
      else
        METRIC_KEYS.filter
          (fun k => ((extract_financial_terms q).map Prod.fst).contains k)) := by
  simp only [analyze_query, identify_financial_terms]

theorem contains_iff_mem (l : List String) (a : String) : l.contains a = true ↔ a ∈ l :=
  ⟨fun h => List.elem_iff.mp h, fun h => List.elem_iff.mpr h⟩

theorem config_terms_nodup : ∀ p ∈ FINANCIAL_TERMS, p.2.Nodup := by decide

/-- Claim C4: for every query and company, `metrics` is `["all"]` iff no
metric-category key is present in `financial_terms`, otherwise it is
exactly the present subset of {revenue, net_income, assets, liabilities,
cash_flow} in that fixed order; and each of `is_comparison`, `is_trend`,
`is_forecast` holds iff the corresponding key is present — on every code
path, independent of the intent. -/
theorem claim_C4 (e : SimEngine) (q c : String) :
    ((analyze_query e q c).metrics =
      (if (METRIC_KEYS.filter
            (fun k => ((extract_financial_terms q).map Prod.fst).contains k)).isEmpty then
        ["all"]
      else
        METRIC_KEYS.filter
          (fun k => ((extract_financial_terms q).map Prod.fst).contains k))) ∧
    ((analyze_query e q c).metrics = ["all"] ↔
      ∀ k ∈ METRIC_KEYS, k ∉ (extract_financial_terms q).map Prod.fst) ∧
    ((analyze_query e q c).is_comparison = true ↔
      "comparison" ∈ (extract_financial_terms q).map Prod.fst) ∧
    ((analyze_query e q c).is_trend = true ↔
      "trend" ∈ (extract_financial_terms q).map Prod.fst) ∧
    ((analyze_query e q c).is_forecast = true ↔
      "forecast" ∈ (extract_financial_terms q).map Prod.fst) := by
  refine ⟨analyze_metrics e q c, ?_, ?_, ?_, ?_⟩
  · rw [analyze_metrics]
    constructor
    · intro h
      intro k hk hmem
      have hne : METRIC_KEYS.filter
          (fun k => ((extract_financial_terms q).map Prod.fst).contains k) ≠ [] := by
        intro h0
        rw [List.filter_eq_nil_iff] at h0
        exact h0 k hk (by simpa using (contains_iff_mem _ k).mpr hmem)
      rw [if_neg (by rw [List.isEmpty_iff]; exact hne)] at h
      have hall : ("all" : String) ∈ METRIC_KEYS.filter
          (fun k => ((extract_financial_terms q).map Prod.fst).contains k) := by
        rw [h]; simp
      have := (List.mem_filter.mp hall).1
      simp [METRIC_KEYS] at this
    · intro h
      have hnil : METRIC_KEYS.filter
          (fun k => ((extract_financial_terms q).map Prod.fst).contains k) = [] := by
        rw [List.filter_eq_nil_iff]
        intro k hk
        simp only [Bool.not_eq_true]
        rcases hc : ((extract_financial_terms q).map Prod.fst).contains k with _ | _
        · rfl
        · exact absurd ((contains_iff_mem _ k).mp hc) (h k hk)
      rw [if_pos (by rw [List.isEmpty_iff]; exact hnil)]
  · rw [analyze_is_comparison]; exact contains_iff_mem _ _
  · rw [analyze_is_trend]; exact contains_iff_mem _ _
  · rw [analyze_is_forecast]; exact contains_iff_mem _ _

/-- Witness for C4 at a concrete query: "compare net income" yields the
metrics revenue (via the synonym "income") and net_income, in the fixed
order, and sets the comparison flag. -/
theorem claim_C4_witness :
    (analyze_query .unavailable "compare net income" "Acme").metrics = ["revenue", "net_income"] ∧
    (analyze_query .unavailable "compare net income" "Acme").is_comparison = true := by
  have h := claim_C4 .unavailable "compare net income" "Acme"
  constructor
  · rw [h.1]; decide
  · exact (h.2.2.1).mpr (by decide)

/-- Claim C10: every category list in the result of the term extractor is
non-empty, duplicate-free, and lists its matched surface forms in the
order of that category's configured synonym list. -/
theorem claim_C10 (text cat : String) (l : List String)
    (hmem : (cat, l) ∈ extract_financial_terms text) :
    l ≠ [] ∧ l.Nodup ∧ ∃ ts, (cat, ts) ∈ FINANCIAL_TERMS ∧ l.Sublist ts := by
  rw [extract_mem_iff] at hmem
  obtain ⟨ts, hts, rfl, hne⟩ := hmem
  exact ⟨hne, List.Nodup.filter _ (config_terms_nodup (cat, ts) hts), ts, hts,
    List.filter_sublist ts⟩

/-- Witness for C10 at a concrete query. -/
theorem claim_C10_witness :
    (["revenue"] : List String) ≠ [] ∧ (["revenue"] : List String).Nodup ∧
      ∃ ts, ("revenue", ts) ∈ FINANCIAL_TERMS ∧ (["revenue"] : List String).Sublist ts :=
  claim_C10 "show revenue" "revenue" ["revenue"] (by decide)

/-- Counterexample to C5 as stated: the query "12023" contains the
4-digit substring "2023" starting with "20", yet `time_periods` is empty,
because the source regex `\b(20\d{2})\b` requires word boundaries and the
preceding character 1 is a word character. -/
theorem claim_C5_cex :
    "12023".toList = '1' :: "2023".toList ∧
    (analyze_query .unavailable "12023" "Acme").time_periods = [] := by
  constructor
  · decide
  · rw [analyze_time_periods, findAll20_eq_yearsSpec]
    decide

/-- Claim C5 (amended): `time_periods` consists exactly of the substrings
"20" + two digits that occur delimited by word boundaries on both sides
(not immediately preceded or followed by a letter, digit or underscore),
in left-to-right order of their start position, duplicates preserved; in
particular every boundary-delimited such substring appears in it. -/
theorem claim_C5_amended (e : SimEngine) (q c : String) :
    (analyze_query e q c).time_periods = yearsSpec none q.toList ∧
    ∀ i, validYearAt none q.toList i = true →
      extractAt q.toList i ∈ (analyze_query e q c).time_periods := by
  have h1 : (analyze_query e q c).time_periods = yearsSpec none q.toList := by
    rw [analyze_time_periods, findAll20_eq_yearsSpec]
  refine ⟨h1, ?_⟩
  intro i hv
  rw [h1]
  unfold yearsSpec
  apply List.mem_map_of_mem
  rw [List.mem_filter]
  refine ⟨?_, hv⟩
  rw [List.mem_range]
  have h2 : q.toList[i]? = some '2' := by
    simp only [validYearAt, Bool.and_eq_true, beq_iff_eq] at hv
    exact hv.1.1.1.1.2
  obtain ⟨hlt, -⟩ := List.getElem?_eq_some_iff.mp h2
  exact hlt

/-- Witness for C5 at "Compare 2022 and 2022": both occurrences of 2022
appear (the one at position 8 is exhibited through the theorem; the full
list is ["2022", "2022"]). -/
theorem claim_C5_witness :
    extractAt "Compare 2022 and 2022".toList 8 ∈
      (analyze_query .unavailable "Compare 2022 and 2022" "Acme").time_periods ∧
    (analyze_query .unavailable "Compare 2022 and 2022" "Acme").time_periods =
      ["2022", "2022"] := by
  have h := claim_C5_amended .unavailable "Compare 2022 and 2022" "Acme"
  refine ⟨h.2 8 (by decide), ?_⟩
  rw [h.1]
  decide

/-- Claim C6: the term extractor records a synonym only when it occurs
with word boundaries on both sides (so "assets" inside "subassets" does
not match); it records every category one of whose synonyms so occurs (in
particular a whole-word "revenue" yields the key revenue); categories
with zero matches are absent (value lists are never empty); and
non-word-only input (empty or whitespace) yields the empty mapping. -/
theorem claim_C6 (text : String) :
    (∀ cat l, (cat, l) ∈ extract_financial_terms text →
        ∀ t ∈ l, OccursWW none t.toList (pyLower text).toList) ∧
    (∀ cat ts, (cat, ts) ∈ FINANCIAL_TERMS →
        ∀ t ∈ ts, OccursWW none t.toList (pyLower text).toList →
        cat ∈ (extract_financial_terms text).map Prod.fst) ∧
    (∀ cat l, (cat, l) ∈ extract_financial_terms text → l ≠ []) ∧
    ((∀ c ∈ (pyLower text).toList, isWordChar c = false) →
        extract_financial_terms text = []) ∧
    (OccursWW none "revenue".toList (pyLower text).toList →
        "revenue" ∈ (extract_financial_terms text).map Prod.fst) ∧
    termOccurs "assets" "subassets" = false := by
  have hb : ∀ cat ts, (cat, ts) ∈ FINANCIAL_TERMS →
      ∀ t ∈ ts, OccursWW none t.toList (pyLower text).toList →
      cat ∈ (extract_financial_terms text).map Prod.fst := by
    intro cat ts hts t ht hocc
    rw [extract_key_iff]
    exact ⟨ts, hts, t, ht,
      (searchFrom_iff_occurs t.toList (config_term_ne_nil cat ts t hts ht) _ none).mpr hocc⟩
  refine ⟨?_, hb, ?_, extract_nonword_eq_nil text, ?_, by decide⟩
  · intro cat l hmem t ht
    rw [extract_mem_iff] at hmem
    obtain ⟨ts, hts, rfl, -⟩ := hmem
    rw [List.mem_filter] at ht
    exact (searchFrom_iff_occurs t.toList (config_term_ne_nil cat ts t hts ht.1) _ none).mp ht.2
  · intro cat l hmem
    rw [extract_mem_iff] at hmem
    obtain ⟨-, -, -, hne⟩ := hmem
    exact hne
  · intro hocc
    exact hb "revenue"
      ["revenue", "sales", "income", "earnings", "money", "earn", "top line", "turnover"]
      (by decide) "revenue" (by decide) hocc

/-- Witness for C6: a whole-word occurrence of "revenue" in a concrete
query produces the key revenue, and the whitespace-only query yields the
empty mapping. -/
theorem claim_C6_witness :
    "revenue" ∈ (extract_financial_terms "What is the revenue of Acme?").map Prod.fst ∧
    extract_financial_terms "  \t " = [] := by
  constructor
  · exact (claim_C6 "What is the revenue of Acme?").2.2.2.2.1
      ⟨"what is the ".toList, " of acme?".toList, by decide, by decide, by decide⟩
  · exact (claim_C6 "  \t ").2.2.2.1 (by decide)

theorem keywordMatch_mem_intents (ql b : String) (h : keywordMatch ql = some b) :
    b ∈ INTENT_NAMES := by
  unfold keywordMatch at h
  repeat' split at h
  all_goals first
    | (injection h with h2; rw [← h2]; decide)
    | injection h

theorem extract_head_key_mem (q cat : String) (l : List String)
    (h : (extract_financial_terms q).head? = some (cat, l)) : cat ∈ CATEGORY_NAMES := by
  have hmem : (cat, l) ∈ extract_financial_terms q :=
    List.mem_of_mem_head? (by rw [h]; simp)
  rw [extract_mem_iff] at hmem
  obtain ⟨ts, hts, -, -⟩ := hmem
  exact List.mem_map_of_mem Prod.fst hts

/-- Counterexample to C1 as stated: for the query "revenue" on the
similarity-unavailable path, the classifier returns the term-category
name "revenue" (the first key of `financial_terms`), which is not one of
the nine intent identifiers and not null. -/
theorem claim_C1_cex :
    (analyze_query .unavailable "revenue" "Acme").query_type = "revenue" ∧
    "revenue" ∉ INTENT_NAMES := by
  exact ⟨by decide, by decide⟩

/-- Claim C1 (amended): on every code path the `query_type` of the result
is one of the nine intent identifiers or one of the ten term-category
names (the latter exactly when the term-based fallback supplies it); it
is never any other value, and never null. -/
theorem claim_C1_amended (e : SimEngine) (q c : String) :
    (analyze_query e q c).query_type ∈ INTENT_NAMES ∨
    (analyze_query e q c).query_type ∈ CATEGORY_NAMES := by
  rw [analyze_query_type]
  cases e with
  | unavailable =>
    simp only [identify_query_type]
    rcases hh : (extract_financial_terms q).head? with _ | ⟨cat, l⟩
    · rcases hk : keywordMatch (pyLower q) with _ | b
      · left
        show ("performance_query" : String) ∈ INTENT_NAMES
        decide
      · left
        show b ∈ INTENT_NAMES
        exact keywordMatch_mem_intents (pyLower q) b hk
    · right
      show cat ∈ CATEGORY_NAMES
      exact extract_head_key_mem q cat l hh
  | available oracle =>
    simp only [identify_query_type]
    rcases hf : (simFold ((QUERY_TEMPLATES.map Prod.fst).zip oracle)).1 with _ | b
    · rcases hh : (extract_financial_terms q).head? with _ | ⟨cat, l⟩
      · left
        show ("performance_query" : String) ∈ INTENT_NAMES
        decide
      · right
        show cat ∈ CATEGORY_NAMES
        exact extract_head_key_mem q cat l hh
    · left
      show b ∈ INTENT_NAMES
      rcases simFoldFrom_fst ((QUERY_TEMPLATES.map Prod.fst).zip oracle) (none, -1) with h0 | h0
      · rw [simFold_eq_from] at hf
        rw [h0] at hf
        exact absurd hf (by simp)
      · obtain ⟨p, hp, heq⟩ := h0
        rw [simFold_eq_from] at hf
        rw [heq] at hf
        have hb : b = p.1 := by injection hf.symm
        rw [hb]
        exact (List.of_mem_zip hp).1

/-- Counterexample to C2 as stated: for "What is the revenue of Acme?"
on the similarity-unavailable path the classifier returns the
term-category name "revenue" (the term-based fallback fires before the
keyword heuristics), not the intent `revenue_query`. -/
theorem claim_C2_cex :
    (analyze_query .unavailable "What is the revenue of Acme?" "Acme").query_type =
      "revenue" ∧
    ("revenue" : String) ≠ "revenue_query" := by
  exact ⟨by decide, by decide⟩

/-- Claim C2 (amended): for the query "What is the revenue of Acme?" and
company "Acme", the preprocessed query equals the preprocessed first
revenue template (both are "revenue acme"), so on the similarity path the
first scored pair (revenue_query, template 0) has cosine similarity 1;
for any oracle whose first score is 1 and whose scores are all at most 1
(the cosine bounds), the intent is `revenue_query`.  On the
similarity-unavailable path the result is the term-category name
"revenue", not `revenue_query`. -/
theorem claim_C2_amended :
    preprocess_text "What is the revenue of Acme?" =
      preprocess_text (formatCompany "What is the revenue of {company}?" "Acme") ∧
    (∀ (oracle : List (List ℚ)) (l0 : List ℚ),
      oracle.head? = some (1 :: l0) →
      (∀ l ∈ oracle, ∀ s ∈ l, s ≤ 1) →
      (analyze_query (.available oracle) "What is the revenue of Acme?" "Acme").query_type =
        "revenue_query") ∧
    (analyze_query .unavailable "What is the revenue of Acme?" "Acme").query_type =
      "revenue" := by
  refine ⟨by decide, ?_, by decide⟩
  intro oracle l0 hhead hle
  rw [analyze_query_type]
  have hsf : simFold ((QUERY_TEMPLATES.map Prod.fst).zip oracle) =
      (some "revenue_query", 1) := by
    rcases oracle with _ | ⟨o0, orest⟩
    · simp at hhead
    · have ho : o0 = 1 :: l0 := by simpa using hhead
      subst ho
      have hnames : QUERY_TEMPLATES.map Prod.fst =
          "revenue_query" :: (QUERY_TEMPLATES.drop 1).map Prod.fst := by decide
      rw [hnames, List.zip_cons_cons, simFold_eq_from, simFoldFrom_cons, intentFold_cons]
      have hstep : scoreStep "revenue_query" (none, -1) 1 = (some "revenue_query", 1) := by
        unfold scoreStep
        rw [if_pos (by norm_num : ((none : Option String), (-1 : ℚ)).2 < 1)]
      rw [hstep]
      have hconst : intentFold "revenue_query" l0 (some "revenue_query", 1) =
          (some "revenue_query", 1) := by
        apply intentFold_const
        intro s hs
        exact hle (1 :: l0) (by simp) s (by simp [hs])
      rw [hconst]
      apply simFoldFrom_const
      intro p hp s hs
      exact hle p.2 (List.mem_cons_of_mem _ (List.of_mem_zip hp).2) s hs
  simp only [identify_query_type, hsf]

/-- Witness for the similarity-path part of C2 at a concrete oracle. -/
theorem claim_C2_witness :
    (analyze_query (.available [[1]]) "What is the revenue of Acme?" "Acme").query_type =
      "revenue_query" :=
  claim_C2_amended.2.1 [[1]] [] rfl (by decide)

/-- Counterexample to C3 as stated: on the similarity path with the
all-zero similarity scores that scikit-learn produces for the empty query
(the empty document vectorizes to the zero row and every cosine score is
0.0, which beats the initial best score -1), the first intent wins:
`analyze("", "Acme")` returns intent `revenue_query` with confidence 0.3,
not `performance_query` with confidence 0.2. -/
theorem claim_C3_cex :
    (analyze_query (.available zeroOracle) "" "Acme").query_type = "revenue_query" ∧
    (analyze_query (.available zeroOracle) "" "Acme").confidence = 3/10 ∧
    ¬((analyze_query (.available zeroOracle) "" "Acme").query_type = "performance_query") := by
  refine ⟨by decide, by rfl, by decide⟩

/-- Claim C3 (amended): `analyze("", "Acme")` returns without error on
both paths, with `metrics = ["all"]` and `time_periods = []`; on the
similarity-unavailable path the intent is `performance_query` with
confidence 0.2, while on the similarity path (where every cosine score of
the empty query is 0) the intent is `revenue_query` with confidence
0.3. -/
theorem claim_C3_amended :
    (analyze_query .unavailable "" "Acme").query_type = "performance_query" ∧
    (analyze_query .unavailable "" "Acme").confidence = 1/5 ∧
    (analyze_query .unavailable "" "Acme").metrics = ["all"] ∧
    (analyze_query .unavailable "" "Acme").time_periods = [] ∧
    (analyze_query (.available zeroOracle) "" "Acme").query_type = "revenue_query" ∧
    (analyze_query (.available zeroOracle) "" "Acme").confidence = 3/10 ∧
    (analyze_query (.available zeroOracle) "" "Acme").metrics = ["all"] ∧
    (analyze_query (.available zeroOracle) "" "Acme").time_periods = [] := by
  refine ⟨by decide, by rfl, by decide, ?_, by decide, by rfl, by decide, ?_⟩
  · rw [analyze_time_periods, findAll20_eq_yearsSpec]
    decide
  · rw [analyze_time_periods, findAll20_eq_yearsSpec]
    decide

/-- Claim C7: on the similarity path, when several (intent, template)
pairs attain the numerically identical maximum score, the intent whose
pair comes first in template-bank enumeration order is chosen — later
equal scores never overwrite the current best, because the loop updates
on strict greater-than only.  The choice is a pure function of the
scores, hence reproducible across runs. -/
theorem claim_C7 (q c : String) (oracle : List (List ℚ)) (m : ℚ) (p : String × ℚ)
    (hmax : ∀ x ∈ pairsOf ((QUERY_TEMPLATES.map Prod.fst).zip oracle), x.2 ≤ m)
    (hm : -1 < m)
    (hfind : (pairsOf ((QUERY_TEMPLATES.map Prod.fst).zip oracle)).find?
        (fun x => x.2 == m) = some p) :
    (analyze_query (.available oracle) q c).query_type = p.1 := by
  rw [analyze_query_type]
  have hsf : simFold ((QUERY_TEMPLATES.map Prod.fst).zip oracle) = (some p.1, m) := by
    rw [simFold_eq_from, simFoldFrom_eq_pairFold]
    exact pairFold_first_max m _ (none, -1) p hm hmax hfind
  simp only [identify_query_type, hsf]

/-- Witness for C7: two intents tie with top score 1; the first one in
enumeration order (revenue_query) wins. -/
theorem claim_C7_witness :
    (analyze_query (.available [[1], [1]]) "some question" "Acme").query_type =
      "revenue_query" :=
  claim_C7 "some question" "Acme" [[1], [1]] 1 ("revenue_query", 1)
    (by decide) (by decide) (by decide)

/-- Claim C8: a failure of the similarity computation for one intent is
caught locally and only that intent is skipped — an intent that yielded
no scores leaves the loop result exactly as if it were absent; and even
when every intent's similarity computation fails, `analyze` still returns
a complete result through the term-based fallback (the embedding is a
total function on every path, mirroring that no exception escapes). -/
theorem claim_C8 (pre post : List (String × List ℚ)) (n : String) :
    simFold (pre ++ (n, ([] : List ℚ)) :: post) = simFold (pre ++ post) ∧
    (analyze_query (.available failOracle) "What is the revenue of Acme?" "Acme").query_type =
      "revenue" ∧
    (analyze_query (.available failOracle) "What is the revenue of Acme?" "Acme").confidence =
      3/10 := by
  exact ⟨simFold_skip pre post n, by decide, by rfl⟩

theorem identify_available_conf_cases (q c : String) (oracle : List (List ℚ)) :
    (identify_query_type (.available oracle) q c).confidence =
      (if 0 < (simFold ((QUERY_TEMPLATES.map Prod.fst).zip oracle)).2 then
        (simFold ((QUERY_TEMPLATES.map Prod.fst).zip oracle)).2
      else 3/10) ∨
    (identify_query_type (.available oracle) q c).confidence = 1/5 := by
  simp only [identify_query_type]
  rcases hf : (simFold ((QUERY_TEMPLATES.map Prod.fst).zip oracle)).1 with _ | b
  · rcases hh : (extract_financial_terms q).head? with _ | p2
    · right; rfl
    · left; rfl
  · left; rfl

theorem identify_unavailable_conf_cases (q c : String) :
    (identify_query_type .unavailable q c).confidence = 1/2 ∨
    (identify_query_type .unavailable q c).confidence = 3/10 ∨
    (identify_query_type .unavailable q c).confidence = 1/5 := by
  simp only [identify_query_type]
  rcases hh : (extract_financial_terms q).head? with _ | p2
  · rcases hk : keywordMatch (pyLower q) with _ | b
    · right; right; rfl
    · right; left; rfl
  · left; rfl

/-- Claim C9: on every code path the confidence lies in [0,1] (on the
similarity path under the cosine bound that every oracle score is at most
1); it is never negative and, being a total rational-valued field, never
null; and when no positive similarity score was obtained it is one of the
fixed defaults 0.5, 0.3 or 0.2. -/
theorem claim_C9 (q c : String) (oracle : List (List ℚ))
    (hb : ∀ l ∈ oracle, ∀ s ∈ l, s ≤ 1) :
    (0 ≤ (analyze_query (.available oracle) q c).confidence ∧
      (analyze_query (.available oracle) q c).confidence ≤ 1) ∧
    (0 ≤ (analyze_query .unavailable q c).confidence ∧
      (analyze_query .unavailable q c).confidence ≤ 1) ∧
    ((analyze_query .unavailable q c).confidence = 1/2 ∨
      (analyze_query .unavailable q c).confidence = 3/10 ∨
      (analyze_query .unavailable q c).confidence = 1/5) ∧
    ((∀ l ∈ oracle, ∀ s ∈ l, s ≤ 0) →
      ((analyze_query (.available oracle) q c).confidence = 3/10 ∨
        (analyze_query (.available oracle) q c).confidence = 1/5)) := by
  have hle1 : (simFold ((QUERY_TEMPLATES.map Prod.fst).zip oracle)).2 ≤ 1 := by
    rw [simFold_eq_from]
    apply simFoldFrom_snd_le _ 1 (none, -1) (by norm_num)
    intro p hp s hs
    exact hb p.2 (List.of_mem_zip hp).2 s hs
  refine ⟨?_, ?_, identify_unavailable_conf_cases q c, ?_⟩
  · rw [analyze_confidence]
    rcases identify_available_conf_cases q c oracle with h1 | h1 <;> rw [h1]
    · constructor
      · split
        · exact le_of_lt (by assumption)
        · norm_num
      · split
        · exact hle1
        · norm_num
    · norm_num
  · rw [analyze_confidence]
    rcases identify_unavailable_conf_cases q c with h1 | h1 | h1 <;> rw [h1] <;> norm_num
  · intro h0
    have hle0 : (simFold ((QUERY_TEMPLATES.map Prod.fst).zip oracle)).2 ≤ 0 := by
      rw [simFold_eq_from]
      apply simFoldFrom_snd_le _ 0 (none, -1) (by norm_num)
      intro p hp s hs
      exact h0 p.2 (List.of_mem_zip hp).2 s hs
    rw [analyze_confidence]
    rcases identify_available_conf_cases q c oracle with h1 | h1 <;> rw [h1]
    · rw [if_neg (not_lt.mpr hle0)]
      left
      rfl
    · right
      rfl

/-- Witness for C9 at the all-zero oracle and the empty query. -/
theorem claim_C9_witness :
    0 ≤ (analyze_query (.available zeroOracle) "" "Acme").confidence ∧
    (analyze_query (.available zeroOracle) "" "Acme").confidence ≤ 1 :=
  (claim_C9 "" "Acme" zeroOracle (by decide)).1

/-- Witness for C1 at a concrete path and query. -/
theorem claim_C1_witness :
    (analyze_query .unavailable "revenue" "Acme").query_type ∈ INTENT_NAMES ∨
    (analyze_query .unavailable "revenue" "Acme").query_type ∈ CATEGORY_NAMES :=
  claim_C1_amended .unavailable "revenue" "Acme"

/-- Witness for C8 at a concrete loop state: a failing second intent
leaves the loop result unchanged. -/
theorem claim_C8_witness :
    simFold ([("revenue_query", [1])] ++ ("net_income_query", ([] : List ℚ)) :: []) =
      simFold ([("revenue_query", [1])] ++ []) :=
  (claim_C8 [("revenue_query", [1])] [] "net_income_query").1
